import Mathlib

/-!
# AnomSched: a shallow embedding of the concurrent job scheduler

This file embeds the data model and operations of the AnomSched repository
(`src/logger.hpp`, `src/scheduler.hpp`, `src/scheduler.cpp`) in Lean 4 and
proves properties of the embedding.

Modelling conventions:
* machine `double` values are idealised as exact rationals (`ℚ`); the
  `int64` millisecond counts produced by `duration_cast` are `ℤ`;
* the z-score test `std::abs((current - mean) / std_dev) > 2.0` of
  `Logger::detectAnomalyRealTime` is embedded in the algebraically
  equivalent squared form `(current - mean)^2 > 4 * variance`
  (with `std_dev = sqrt variance`).  Over exact reals the two agree when
  `variance > 0` (proved below as `detectAnomaly_zscore_iff`), and when
  `variance = 0` the squared form agrees with the IEEE-754 semantics the
  C++ code actually exercises: `(c-m)/0.0` is `NaN` for `c = m`
  (every comparison with `NaN` is false) and `±inf` for `c ≠ m`
  (so `> 2.0` holds).  The division by a zero `std_dev` that the C++
  code performs in the degenerate case is exposed separately by
  `dividesByZeroStdDev`;
* the multithreaded scheduler is embedded as a labelled transition system
  whose atomic steps are exactly the critical sections of
  `Scheduler::worker_loop`, `Scheduler::submitJob` and `Scheduler::stop`;
* `std::ofstream` (which on a failed `open` silently swallows writes) and
  `std::vector` growth (`capacity` at least `size`, growing on
  `emplace_back` at capacity) are modelled explicitly.
-/

namespace AnomSched

/-! ## Logger (`src/logger.hpp`) -/

/-- `size_t max_history = 50;` of `Logger`. -/
def max_history : ℕ := 50

/-- The mean computed by `Logger::detectAnomalyRealTime`:
`std::accumulate(history.begin(), history.end(), 0.0) / history.size()`. -/
def windowMean (history : List ℚ) : ℚ :=
  history.sum / history.length

/-- The population variance computed by `Logger::detectAnomalyRealTime`:
the loop accumulating `(duration - mean) * (duration - mean)` followed by
`variance /= execution_history.size()`. -/
def windowVariance (history : List ℚ) : ℚ :=
  (history.map (fun d => (d - windowMean history) * (d - windowMean history))).sum
    / history.length

/-- `Logger::detectAnomalyRealTime(double current_duration)`.

The source returns `false` when `execution_history.size() < 10`, otherwise
computes `z = std::abs((current - mean) / std_dev)` with
`std_dev = std::sqrt(variance)` and returns `z > 2.0`.  Following the file
header convention the comparison is embedded in the equivalent squared form
`(current - mean)^2 > 4 * variance` (see `detectAnomaly_zscore_iff`), which
also reproduces the IEEE behaviour of the division when `std_dev == 0`. -/
def detectAnomalyRealTime (history : List ℚ) (current : ℚ) : Bool :=
  if history.length < 10 then false
  else decide ((current - windowMean history) * (current - windowMean history)
                 > 4 * windowVariance history)

/-- The C++ `detectAnomalyRealTime` divides by `std_dev` unconditionally
once past the size guard; this predicate holds exactly when that division
is a division by zero, i.e. the window has at least 10 samples and the
population variance (hence `std_dev = sqrt variance`) is zero. -/
def dividesByZeroStdDev (history : List ℚ) : Bool :=
  if history.length < 10 then false
  else decide (windowVariance history = 0)

/-- The timing arguments of one `Logger::log` call (millisecond counts of
the three `time_point`s, plus the ids), as produced by a worker. -/
structure LogInput where
  job_id : ℤ
  thread_id : ℤ
  submit_ms : ℤ
  start_ms : ℤ
  end_ms : ℤ
  deriving Repr, DecidableEq

/-- `exec_duration = end_ms - start_ms` of `Logger::log`. -/
def LogInput.exec_duration (r : LogInput) : ℤ := r.end_ms - r.start_ms

/-- `queue_wait = start_ms - submit_ms` of `Logger::log`. -/
def LogInput.queue_wait (r : LogInput) : ℤ := r.start_ms - r.submit_ms

/-- One CSV row emitted by `Logger::log`, in source order:
`job_id, thread_id, submit_ms, start_ms, end_ms, exec_duration, queue_wait,
(is_anomaly ? "1" : "0")`. -/
def rowOf (r : LogInput) (is_anomaly : Bool) : List ℤ :=
  [r.job_id, r.thread_id, r.submit_ms, r.start_ms, r.end_ms,
   r.exec_duration, r.queue_wait, if is_anomaly then 1 else 0]

/-- The mutable state of a `Logger`: the `execution_history` vector
(oldest first, as `push_back` appends and `erase(begin)` drops the head). -/
structure LoggerState where
  execution_history : List ℚ
  deriving Repr, DecidableEq

/-- A fresh `Logger` (empty `execution_history`). -/
def LoggerState.init : LoggerState := ⟨[]⟩

/-- The record emitted by one `Logger::log` call: the CSV row and the
anomaly flag (which also drives the console alert). -/
structure Emitted where
  row : List ℤ
  is_anomaly : Bool
  deriving Repr, DecidableEq

/-- `Logger::log`: classifies the duration against the *current* history,
then appends it (`push_back`) and evicts the oldest entry
(`erase(begin)`) when the history exceeds `max_history`, then writes the
row. -/
def logStep (st : LoggerState) (r : LogInput) : Emitted × LoggerState :=
  let exec_duration : ℚ := (r.exec_duration : ℚ)
  let is_anomaly := detectAnomalyRealTime st.execution_history exec_duration
  let h1 := st.execution_history ++ [exec_duration]
  let h2 := if max_history < h1.length then h1.tail else h1
  (⟨rowOf r is_anomaly, is_anomaly⟩, ⟨h2⟩)

/-- Runs `Logger::log` over a sequence of completed jobs, collecting the
emitted records and the final logger state. -/
def runLog (st : LoggerState) : List LogInput → List Emitted × LoggerState
  | [] => ([], st)
  | r :: rs =>
    let p := logStep st r
    let q := runLog p.2 rs
    (p.1 :: q.1, q.2)

/-- The execution durations of a sequence of log calls, in order. -/
def durationsOf (rs : List LogInput) : List ℚ :=
  rs.map (fun r => (r.exec_duration : ℚ))

/-- The last `n` elements of a list (`l` with all but the last `n`
dropped); the shape of the rolling window. -/
def lastN (n : ℕ) (l : List ℚ) : List ℚ :=
  l.drop (l.length - n)

/-! ## Scheduler (`src/scheduler.hpp`, `src/scheduler.cpp`)

The scheduler is embedded as a labelled transition system.  A state holds
the `running` flag, the contents of `job_queue`, one program counter per
worker thread, and the stream of completed-job records (job ids, in the
order `Logger::log` was called).  Each transition is one of the atomic
critical sections of the C++ code. -/

/-- A `Job` as a worker sees it: `id` and `priority` (`task` bodies and
timestamps are irrelevant to dispatch ordering and drain semantics). -/
structure SJob where
  id : ℕ
  priority : ℤ
  deriving Repr, DecidableEq

/-- The maximal-priority element of `j :: js`, scanning left to right and
keeping the later element on a strict increase — the `top()` of
`std::priority_queue<Job>` under `Job::operator<` (which compares
`priority`; the tie-break among equal priorities is unspecified in the
heap, so any representative is a faithful model). -/
def heapMax : SJob → List SJob → SJob
  | j, [] => j
  | j, k :: ks => if j.priority < k.priority then heapMax k ks else heapMax j ks

/-- `top()` followed by `pop()` on the job queue: returns the
maximal-priority job and the remaining queue (`none` on an empty queue,
on which `worker_loop` never pops). -/
def popTop : List SJob → Option (SJob × List SJob)
  | [] => none
  | j :: js => some (heapMax j js, (j :: js).erase (heapMax j js))

/-- Program counter of one worker thread inside `Scheduler::worker_loop`:
at the `while (running)` test, blocked in `condition.wait`, executing a
popped job, or returned. -/
inductive WorkerPc
  | loopTop
  | waiting
  | busy (j : SJob)
  | exited
  deriving Repr, DecidableEq

/-- Global scheduler state: the `running` flag, the `job_queue` contents,
each worker's program counter, and the ids of jobs whose execution records
have been written (completion order). -/
structure SchedState where
  running : Bool
  queue : List SJob
  workers : List WorkerPc
  records : List ℕ
  deriving Repr, DecidableEq

/-- One atomic step of the scheduler.  Each constructor is a critical
section of `src/scheduler.cpp`:

* `submit`: `Scheduler::submitJob` pushes a job under `queue_mutex`;
* `stop`: `Scheduler::stop` stores `running = false` (the joins are the
  absence of further steps by exited workers);
* `enterWait`: a worker at `while (running)` reads `running == true` and
  blocks on `condition.wait`;
* `exitLoop`: a worker at `while (running)` reads `running == false` and
  returns;
* `wakeExit`: a woken worker sees `!running && job_queue.empty()` and
  returns;
* `wakePop`: a woken worker sees a non-empty queue (the wait predicate
  `!job_queue.empty() || !running` holds and the early-return guard
  `!running && job_queue.empty()` fails), so it pops the top job —
  note this does *not* require `running` to still be true;
* `finish`: the worker runs the job body and calls `Logger::log`. -/
inductive Step : SchedState → SchedState → Prop
  | submit (s : SchedState) (j : SJob) :
      Step s { s with queue := j :: s.queue }
  | stop (s : SchedState) :
      Step s { s with running := false }
  | enterWait (s : SchedState) (i : ℕ)
      (h : s.workers[i]? = some .loopTop) (hr : s.running = true) :
      Step s { s with workers := s.workers.set i .waiting }
  | exitLoop (s : SchedState) (i : ℕ)
      (h : s.workers[i]? = some .loopTop) (hr : s.running = false) :
      Step s { s with workers := s.workers.set i .exited }
  | wakeExit (s : SchedState) (i : ℕ)
      (h : s.workers[i]? = some .waiting) (hr : s.running = false)
      (hq : s.queue = []) :
      Step s { s with workers := s.workers.set i .exited }
  | wakePop (s : SchedState) (i : ℕ) (j : SJob) (q' : List SJob)
      (h : s.workers[i]? = some .waiting) (hq : popTop s.queue = some (j, q')) :
      Step s { s with workers := s.workers.set i (.busy j), queue := q' }
  | finish (s : SchedState) (i : ℕ) (j : SJob)
      (h : s.workers[i]? = some (.busy j)) :
      Step s { s with workers := s.workers.set i .loopTop,
                      records := s.records ++ [j.id] }

/-- Reachability along scheduler steps. -/
def Reaches : SchedState → SchedState → Prop :=
  Relation.ReflTransGen Step

/-- Every worker thread has returned from `worker_loop`. -/
def allExited (s : SchedState) : Prop :=
  ∀ pc ∈ s.workers, pc = WorkerPc.exited

/-- The drain claim exactly as the specification states it: whenever a
step flips `running` from `true` to `false` (a `stop()` call), every job
then still in the queue is never executed — no record for it is ever
emitted in any continuation of the trace. -/
def stopDiscardsQueued : Prop :=
  ∀ s s' : SchedState, Step s s' → s.running = true → s'.running = false →
    ∀ j ∈ s.queue, ∀ t, Reaches s' t → j.id ∉ t.records

/-! ## `Scheduler::start` and the worker vector (`src/scheduler.cpp`)

`start` runs `for (; thread_id < (int)workers.capacity(); ++thread_id)
workers.emplace_back(...)` with no guard against being called twice.  The
`std::vector` is modelled by its `size` and `capacity` (`capacity ≥ size`
always; `emplace_back` at capacity grows it — libstdc++ doubles, and any
growth to at least `size + 1` gives the same behaviour here). -/

/-- The `workers` vector of the scheduler, abstracted to size/capacity. -/
structure WorkerVec where
  size : ℕ
  capacity : ℕ
  deriving Repr, DecidableEq

/-- `workers.emplace_back(...)`: appends one thread, growing the capacity
(doubling, as libstdc++ does) when full. -/
def emplace_back (v : WorkerVec) : WorkerVec :=
  if v.size < v.capacity then ⟨v.size + 1, v.capacity⟩
  else ⟨v.size + 1, max 1 (2 * v.capacity)⟩

/-- The spawn loop of `Scheduler::start`, with explicit fuel (the C++
loop re-reads `workers.capacity()` in its condition every iteration, so
it has no intrinsic bound; `fuel` counts loop iterations executed). -/
def startLoop : ℕ → ℕ → WorkerVec → WorkerVec
  | 0, _, v => v
  | fuel + 1, thread_id, v =>
    if thread_id < v.capacity then startLoop fuel (thread_id + 1) (emplace_back v)
    else v

/-- `Scheduler::Scheduler(num_threads, ...)`: `workers.reserve(num_threads)`
leaves an empty vector with capacity `num_threads`. -/
def schedulerCtorWorkers (num_threads : ℕ) : WorkerVec :=
  ⟨0, num_threads⟩

/-! ## `Logger::Logger` and the metrics sink (`src/logger.hpp`)

The constructor does `log_file.open(filename, std::ios::out)` and then
streams the header — with no check of `is_open()` and with the default
`ofstream` exception mask, under which a failed `open` merely sets
`failbit` and every subsequent `<<` is silently ignored.  The file stream
is modelled by its open flag and the lines successfully written; whether
the `open` succeeds is the input of the model. -/

/-- An `std::ofstream`: open flag plus the lines written so far. -/
structure FileSink where
  is_open : Bool
  lines : List String
  deriving Repr, DecidableEq

/-- `stream << line`: appends on an open stream, silently does nothing on
a failed one (default exception mask: no throw). -/
def ofstreamWrite (f : FileSink) (line : String) : FileSink :=
  if f.is_open then ⟨f.is_open, f.lines ++ [line]⟩ else f

/-- The CSV header written by the `Logger` constructor. -/
def csvHeader : String :=
  "JobID,ThreadID,SubmitTime,StartTime,EndTime,ExecDurationMS,QueueWaitMS,IsAnomaly"

/-- `Logger::Logger(filename)`: opens the file (outcome `openSucceeds`)
and writes the header.  The constructor is a total function — it returns
a logger in every case, with no error reported (the C++ constructor has
no `is_open` check and cannot throw under the default exception mask). -/
def loggerCtorFile (openSucceeds : Bool) : FileSink :=
  ofstreamWrite ⟨openSucceeds, []⟩ csvHeader

/-! ## Helper lemmas about the logger -/

theorem detect_of_short (history : List ℚ) (c : ℚ) (h : history.length < 10) :
    detectAnomalyRealTime history c = false := by
  simp [detectAnomalyRealTime, h]

theorem logStep_is_anomaly (st : LoggerState) (r : LogInput) :
    (logStep st r).1.is_anomaly
      = detectAnomalyRealTime st.execution_history (r.exec_duration : ℚ) := rfl

theorem logStep_history (st : LoggerState) (r : LogInput) :
    (logStep st r).2.execution_history
      = (if max_history < (st.execution_history ++ [(r.exec_duration : ℚ)]).length
         then (st.execution_history ++ [(r.exec_duration : ℚ)]).tail
         else st.execution_history ++ [(r.exec_duration : ℚ)]) := rfl

theorem lastN_of_le (n : ℕ) (l : List ℚ) (h : l.length ≤ n) : lastN n l = l := by
  simp [lastN, Nat.sub_eq_zero_of_le h]

theorem lastN_length (n : ℕ) (l : List ℚ) : (lastN n l).length = min n l.length := by
  simp only [lastN, List.length_drop]
  omega

theorem logStep_lastN (st : LoggerState) (r : LogInput) (ds : List ℚ)
    (h : st.execution_history = lastN max_history ds) :
    (logStep st r).2.execution_history
      = lastN max_history (ds ++ [(r.exec_duration : ℚ)]) := by
  rw [logStep_history, h]
  simp only [max_history]
  by_cases hc : ds.length ≤ 49
  · have h1 : lastN 50 ds = ds := lastN_of_le _ _ (by omega)
    have h2 : ¬ 50 < (ds ++ [(r.exec_duration : ℚ)]).length := by
      simp only [List.length_append, List.length_cons, List.length_nil]
      omega
    rw [h1, if_neg h2, lastN_of_le _ _ (by simpa using Nat.not_lt.mp h2)]
  · have hlen : (lastN 50 ds).length = 50 := by
      rw [lastN_length]; omega
    have h2 : 50 < (lastN 50 ds ++ [(r.exec_duration : ℚ)]).length := by
      simp only [List.length_append, List.length_cons, List.length_nil, hlen]
      omega
    rw [if_pos h2]
    have hne : lastN 50 ds ≠ [] := by
      intro hnil
      rw [hnil] at hlen
      simp at hlen
    rw [List.tail_append_of_ne_nil hne]
    unfold lastN
    have harg : (ds ++ [(r.exec_duration : ℚ)]).length - 50 ≤ ds.length := by
      simp only [List.length_append, List.length_cons, List.length_nil]
      omega
    rw [List.tail_drop, List.drop_append_of_le_length harg,
      List.length_append]
    have heq : ds.length - 50 + 1
        = ds.length + [(r.exec_duration : ℚ)].length - 50 := by
      simp only [List.length_cons, List.length_nil]
      omega
    rw [heq]

theorem runLog_history (rs : List LogInput) : ∀ (st : LoggerState) (ds : List ℚ),
    st.execution_history = lastN max_history ds →
    (runLog st rs).2.execution_history
      = lastN max_history (ds ++ durationsOf rs) := by
  induction rs with
  | nil =>
    intro st ds h
    simpa [runLog, durationsOf] using h
  | cons r rs ih =>
    intro st ds h
    have hstep := logStep_lastN st r ds h
    have := ih (logStep st r).2 (ds ++ [(r.exec_duration : ℚ)]) hstep
    simpa [runLog, durationsOf, List.append_assoc] using this

theorem runLog_fst_length (rs : List LogInput) :
    ∀ st : LoggerState, (runLog st rs).1.length = rs.length := by
  induction rs with
  | nil => intro st; simp [runLog]
  | cons r rs ih => intro st; simp [runLog, ih]

theorem logStep_history_length_le (st : LoggerState) (r : LogInput) :
    (logStep st r).2.execution_history.length ≤ st.execution_history.length + 1 := by
  rw [logStep_history]
  split <;> simp

theorem runLog_early_flag (rs : List LogInput) : ∀ (st : LoggerState) (i : ℕ),
    st.execution_history.length + i < 10 →
    ∀ e, (runLog st rs).1[i]? = some e → e.is_anomaly = false := by
  induction rs with
  | nil =>
    intro st i _ e he
    simp [runLog] at he
  | cons r rs ih =>
    intro st i hlt e he
    simp only [runLog] at he
    match i with
    | 0 =>
      simp only [List.getElem?_cons_zero, Option.some.injEq] at he
      rw [← he, logStep_is_anomaly]
      exact detect_of_short _ _ (by omega)
    | i + 1 =>
      simp only [List.getElem?_cons_succ] at he
      have hle := logStep_history_length_le st r
      exact ih (logStep st r).2 i (by omega) e he

theorem runLog_init_history (rs : List LogInput) :
    (runLog LoggerState.init rs).2.execution_history
      = lastN max_history (durationsOf rs) := by
  have h := runLog_history rs LoggerState.init []
    (by simp [LoggerState.init, lastN])
  simpa using h

theorem runLog_init_history_length (rs : List LogInput) :
    (runLog LoggerState.init rs).2.execution_history.length
      = min rs.length max_history := by
  rw [runLog_init_history, lastN_length]
  simp only [durationsOf, List.length_map]
  omega

/-! ## C8 and C9 -/

/-- C8: the rolling duration window always holds at most 50 entries with
FIFO eviction: after any sequence of `Logger::log` calls the
`execution_history` is exactly the most recent `min(completedCount, 50)`
durations in observation order. -/
theorem window_fifo_invariant (rs : List LogInput) :
    (runLog LoggerState.init rs).2.execution_history
      = lastN max_history (durationsOf rs) ∧
    (runLog LoggerState.init rs).2.execution_history.length
      = min rs.length max_history ∧
    (runLog LoggerState.init rs).2.execution_history.length ≤ max_history := by
  refine ⟨runLog_init_history rs, runLog_init_history_length rs, ?_⟩
  rw [runLog_init_history_length]
  omega

/-- C9: every record emitted by `Logger::log` has exactly 8 fields in the
fixed column order, with `ExecDurationMS = EndTime - StartTime`,
`QueueWaitMS = StartTime - SubmitTime`, and `IsAnomaly ∈ {0, 1}`. -/
theorem record_schema_eight_fields (st : LoggerState) (r : LogInput) :
    (logStep st r).1.row.length = 8 ∧
    (logStep st r).1.row[0]? = some r.job_id ∧
    (logStep st r).1.row[1]? = some r.thread_id ∧
    (logStep st r).1.row[2]? = some r.submit_ms ∧
    (logStep st r).1.row[3]? = some r.start_ms ∧
    (logStep st r).1.row[4]? = some r.end_ms ∧
    (logStep st r).1.row[5]? = some (r.end_ms - r.start_ms) ∧
    (logStep st r).1.row[6]? = some (r.start_ms - r.submit_ms) ∧
    ((logStep st r).1.row[7]? = some 0 ∨ (logStep st r).1.row[7]? = some 1) := by
  cases h : detectAnomalyRealTime st.execution_history (r.exec_duration : ℚ) <;>
    simp [logStep, rowOf, LogInput.exec_duration, LogInput.queue_wait, h]

/-! ## C7 and C10: the insufficient-history branch -/

/-- C7: a classification made while the window holds fewer than 10
samples returns not-anomalous, the duration is still appended to the
window afterwards, and consequently the first 9 records of any trace are
not-anomalous. -/
theorem insufficient_history_not_anomalous (st : LoggerState) (r : LogInput)
    (hshort : st.execution_history.length < 10)
    (rs : List LogInput) (i : ℕ) (hi9 : i < 9) :
    (logStep st r).1.is_anomaly = false ∧
    (logStep st r).2.execution_history
      = st.execution_history ++ [(r.exec_duration : ℚ)] ∧
    (∀ e, (runLog LoggerState.init rs).1[i]? = some e → e.is_anomaly = false) := by
  refine ⟨?_, ?_, ?_⟩
  · rw [logStep_is_anomaly]
    exact detect_of_short _ _ hshort
  · rw [logStep_history, if_neg]
    simp only [max_history, List.length_append, List.length_cons, List.length_nil]
    omega
  · exact runLog_early_flag rs LoggerState.init i
      (by simp only [LoggerState.init, List.length_nil]; omega)

/-- Witness for `insufficient_history_not_anomalous` at a fresh logger and
one concrete job record. -/
theorem insufficient_history_not_anomalous_witness :
    (logStep LoggerState.init ⟨1, 0, 0, 5, 105⟩).1.is_anomaly = false ∧
    (logStep LoggerState.init ⟨1, 0, 0, 5, 105⟩).2.execution_history
      = LoggerState.init.execution_history
          ++ [((⟨1, 0, 0, 5, 105⟩ : LogInput).exec_duration : ℚ)] ∧
    (∀ e, (runLog LoggerState.init [⟨1, 0, 0, 5, 105⟩]).1[0]? = some e →
      e.is_anomaly = false) :=
  insufficient_history_not_anomalous LoggerState.init ⟨1, 0, 0, 5, 105⟩
    (by simp [LoggerState.init]) [⟨1, 0, 0, 5, 105⟩] 0 (by omega)

/-- C10: the first 10 completed jobs (not merely 9) are classified
not-anomalous, because when the `i`-th record (0-indexed, `i < 10`) is
classified the window holds exactly `min i 50` samples, which is below
the 10-sample threshold. -/
theorem first_ten_completions_not_anomalous (rs : List LogInput) (i : ℕ)
    (hi : i < 10) (hlen : i ≤ rs.length) :
    (∀ e, (runLog LoggerState.init rs).1[i]? = some e → e.is_anomaly = false) ∧
    (runLog LoggerState.init (rs.take i)).2.execution_history.length
      = min i max_history := by
  constructor
  · exact runLog_early_flag rs LoggerState.init i
      (by simp only [LoggerState.init, List.length_nil]; omega)
  · rw [runLog_init_history_length, List.length_take]
    simp only [max_history]
    omega

/-- Witness for `first_ten_completions_not_anomalous` on a one-record
trace. -/
theorem first_ten_completions_not_anomalous_witness :
    (∀ e, (runLog LoggerState.init [⟨1, 0, 0, 5, 105⟩]).1[0]? = some e →
      e.is_anomaly = false) ∧
    (runLog LoggerState.init
        (([⟨1, 0, 0, 5, 105⟩] : List LogInput).take 0)).2.execution_history.length
      = min 0 max_history :=
  first_ten_completions_not_anomalous [⟨1, 0, 0, 5, 105⟩] 0 (by omega) (by simp)

/-! ## Helper lemmas for the anomaly statistics -/

theorem windowVariance_nonneg (history : List ℚ) : 0 ≤ windowVariance history := by
  unfold windowVariance
  apply div_nonneg
  · apply List.sum_nonneg
    intro x hx
    simp only [List.mem_map] at hx
    obtain ⟨d, _, rfl⟩ := hx
    exact mul_self_nonneg _
  · exact_mod_cast Nat.zero_le _

theorem detect_of_long (history : List ℚ) (c : ℚ) (h : ¬ history.length < 10) :
    (detectAnomalyRealTime history c = true ↔
      4 * windowVariance history
        < (c - windowMean history) * (c - windowMean history)) := by
  simp [detectAnomalyRealTime, h]

theorem windowMean_replicate (n : ℕ) (v : ℚ) (hn : n ≠ 0) :
    windowMean (List.replicate n v) = v := by
  have hq : (n : ℚ) ≠ 0 := Nat.cast_ne_zero.mpr hn
  simp only [windowMean, List.sum_replicate, List.length_replicate, nsmul_eq_mul]
  field_simp

theorem windowVariance_replicate (n : ℕ) (v : ℚ) (hn : n ≠ 0) :
    windowVariance (List.replicate n v) = 0 := by
  simp [windowVariance, windowMean_replicate n v hn, List.map_replicate]

/-! ## C3: the degenerate (zero-variance) case -/

/-- C3 counterexample: the claim says the classification "performs no
division by zero", but `Logger::detectAnomalyRealTime` divides by
`std_dev` unconditionally once the window holds 10 samples, and on a
window of 10 identical durations `std_dev` is exactly `0`: the division
`(current_duration - mean) / std_dev` is a division by zero.  (IEEE-754
makes it non-trapping — `NaN` or `±inf` — which is why the *outcomes*
still match the specification; see
`zero_variance_anomaly_iff_ne_mean`.) -/
theorem no_division_by_zero_refuted :
    dividesByZeroStdDev (List.replicate 10 (100 : ℚ)) = true := by
  norm_num [dividesByZeroStdDev, windowVariance_replicate]

/-- C3 amended: with at least 10 samples all equal to `v`, the code *does*
divide by the zero `std_dev`, and (under the IEEE semantics of that
division, reproduced exactly by the squared-form embedding) classifies a
new duration as anomalous iff it differs from the window mean `v`. -/
theorem zero_variance_anomaly_iff_ne_mean (history : List ℚ) (v c : ℚ)
    (h10 : 10 ≤ history.length) (hall : ∀ x ∈ history, x = v) :
    (detectAnomalyRealTime history c = true ↔ c ≠ v) ∧
    dividesByZeroStdDev history = true := by
  have hn : history.length ≠ 0 := by omega
  have hrep : history = List.replicate history.length v :=
    List.eq_replicate_length.mpr hall
  have hvar : windowVariance history = 0 := by
    rw [hrep]
    exact windowVariance_replicate _ _ hn
  have hmean : windowMean history = v := by
    rw [hrep]
    exact windowMean_replicate _ _ hn
  constructor
  · rw [detect_of_long history c (by omega), hvar, hmean]
    rw [mul_zero, ← sub_ne_zero (a := c) (b := v)]
    exact mul_self_pos
  · simp [dividesByZeroStdDev, hvar]
    omega

/-- Witness for `zero_variance_anomaly_iff_ne_mean`: ten identical 100ms
durations followed by a 150ms sample. -/
theorem zero_variance_anomaly_iff_ne_mean_witness :
    (detectAnomalyRealTime (List.replicate 10 (100 : ℚ)) 150 = true
        ↔ (150 : ℚ) ≠ 100) ∧
    dividesByZeroStdDev (List.replicate 10 (100 : ℚ)) = true :=
  zero_variance_anomaly_iff_ne_mean (List.replicate 10 100) 100 150 (by simp)
    (fun x hx => List.eq_of_mem_replicate hx)

/-! ## C4: the z-score classification -/

/-- C4: with at least 10 samples and a non-zero variance, the detector
classifies `c` as anomalous iff `|c - mean| / sqrt variance > 2`, where
`mean` is the arithmetic mean and `variance` the population variance
(denominator `n`, not `n - 1`) of the *existing* window; and `Logger::log`
computes the flag from the pre-append window, appending the new duration
only after the decision. -/
theorem anomaly_iff_zscore_gt_two (history : List ℚ) (c : ℚ)
    (h10 : ¬ history.length < 10) (hv : windowVariance history ≠ 0) :
    (detectAnomalyRealTime history c = true ↔
      2 < |(c : ℝ) - (windowMean history : ℝ)|
            / Real.sqrt (windowVariance history : ℝ)) ∧
    (∀ (st : LoggerState) (r : LogInput),
      (logStep st r).1.is_anomaly
        = detectAnomalyRealTime st.execution_history (r.exec_duration : ℚ)) := by
  refine ⟨?_, fun st r => rfl⟩
  have hvpos : (0 : ℝ) < (windowVariance history : ℝ) := by
    have h1 : (0 : ℚ) < windowVariance history :=
      lt_of_le_of_ne (windowVariance_nonneg history) (Ne.symm hv)
    exact_mod_cast h1
  have hs : (0 : ℝ) < Real.sqrt (windowVariance history : ℝ) :=
    Real.sqrt_pos.mpr hvpos
  rw [detect_of_long history c h10, lt_div_iff₀ hs]
  have hcast : (4 * windowVariance history
        < (c - windowMean history) * (c - windowMean history)) ↔
      ((4 : ℝ) * (windowVariance history : ℝ)
        < ((c : ℝ) - (windowMean history : ℝ))
            * ((c : ℝ) - (windowMean history : ℝ))) := by
    rw [← Rat.cast_lt (K := ℝ)]
    push_cast
    tauto
  rw [hcast]
  have hsq : (4 : ℝ) * (windowVariance history : ℝ)
      = (2 * Real.sqrt (windowVariance history : ℝ))
          * (2 * Real.sqrt (windowVariance history : ℝ)) := by
    have := Real.mul_self_sqrt hvpos.le
    nlinarith [this]
  rw [hsq, ← abs_mul_abs_self ((c : ℝ) - (windowMean history : ℝ))]
  exact (mul_self_lt_mul_self_iff (by positivity) (abs_nonneg _)).symm

/-- Witness for `anomaly_iff_zscore_gt_two`: a 10-sample window of nine
0ms durations and one 10ms duration (mean 1, population variance 9). -/
theorem anomaly_iff_zscore_gt_two_witness :
    (detectAnomalyRealTime [0, 0, 0, 0, 0, 0, 0, 0, 0, (10 : ℚ)] 100 = true ↔
      2 < |((100 : ℚ) : ℝ)
            - ((windowMean [0, 0, 0, 0, 0, 0, 0, 0, 0, (10 : ℚ)] : ℚ) : ℝ)|
            / Real.sqrt
                ((windowVariance [0, 0, 0, 0, 0, 0, 0, 0, 0, (10 : ℚ)] : ℚ) : ℝ)) ∧
    (∀ (st : LoggerState) (r : LogInput),
      (logStep st r).1.is_anomaly
        = detectAnomalyRealTime st.execution_history (r.exec_duration : ℚ)) :=
  anomaly_iff_zscore_gt_two [0, 0, 0, 0, 0, 0, 0, 0, 0, (10 : ℚ)] 100
    (by norm_num) (by norm_num [windowVariance, windowMean])

/-! ## C6: max-priority dispatch -/

theorem heapMax_mem (j : SJob) (js : List SJob) : heapMax j js ∈ j :: js := by
  induction js generalizing j with
  | nil => simp [heapMax]
  | cons k ks ih =>
    rw [heapMax]
    split
    · have h := ih k
      simp only [List.mem_cons] at h ⊢
      tauto
    · have h := ih j
      simp only [List.mem_cons] at h ⊢
      tauto

theorem le_heapMax (j : SJob) (js : List SJob) :
    ∀ x ∈ j :: js, x.priority ≤ (heapMax j js).priority := by
  induction js generalizing j with
  | nil =>
    intro x hx
    simp only [List.mem_cons, List.not_mem_nil, or_false] at hx
    simp [hx, heapMax]
  | cons k ks ih =>
    intro x hx
    simp only [List.mem_cons] at hx
    rw [heapMax]
    split
    · rename_i hjk
      rcases hx with hxj | hxk | hxm
      · rw [hxj]
        exact le_trans (le_of_lt hjk) (ih k k (by simp))
      · rw [hxk]
        exact ih k k (by simp)
      · exact ih k x (by simp [hxm])
    · rename_i hjk
      rcases hx with hxj | hxk | hxm
      · rw [hxj]
        exact ih j j (by simp)
      · rw [hxk]
        exact le_trans (le_of_not_lt hjk) (ih j j (by simp))
      · exact ih j x (by simp [hxm])

/-- C6: whenever a worker pops from a queue containing two jobs of
distinct priorities, the popped job has maximal priority among all jobs
present, so the lower-priority one is never taken first — it stays in
the remaining queue — regardless of the order of submission (the queue
contents `q` are arbitrary). -/
theorem higher_priority_dequeued_first (q q' : List SJob) (a b j : SJob)
    (ha : a ∈ q) (hb : b ∈ q) (hab : b.priority < a.priority)
    (hpop : popTop q = some (j, q')) :
    (∀ x ∈ q, x.priority ≤ j.priority) ∧ j ≠ b ∧ b ∈ q' := by
  cases q with
  | nil => simp [popTop] at hpop
  | cons y ys =>
    simp only [popTop, Option.some.injEq, Prod.mk.injEq] at hpop
    obtain ⟨hj, hq'⟩ := hpop
    subst hj
    subst hq'
    have hmax := le_heapMax y ys
    have hbj : heapMax y ys ≠ b := by
      intro hcontra
      have h1 := hmax a ha
      rw [hcontra] at h1
      omega
    refine ⟨hmax, hbj, ?_⟩
    exact (List.mem_erase_of_ne (Ne.symm hbj)).mpr hb

/-- Witness for `higher_priority_dequeued_first`: jobs of priorities 1
and 5, submitted in that order; the pop takes the priority-5 job. -/
theorem higher_priority_dequeued_first_witness :
    (∀ x ∈ ([⟨1, 1⟩, ⟨2, 5⟩] : List SJob),
      x.priority ≤ (⟨2, 5⟩ : SJob).priority) ∧
    (⟨2, 5⟩ : SJob) ≠ ⟨1, 1⟩ ∧ (⟨1, 1⟩ : SJob) ∈ ([⟨1, 1⟩] : List SJob) :=
  higher_priority_dequeued_first [⟨1, 1⟩, ⟨2, 5⟩] [⟨1, 1⟩] ⟨2, 5⟩ ⟨1, 1⟩ ⟨2, 5⟩
    (by simp) (by simp) (by decide) (by decide)

/-! ## C1: drain semantics of `stop()` -/

/-- C1 counterexample: the drain claim as stated is false.  Concrete
trace with one worker: the worker blocks in `condition.wait` on an empty
queue; the caller submits job 1 and immediately calls `stop()`, so job 1
is still in the queue when `running` flips to `false`; the woken worker's
wait predicate `!job_queue.empty() || !running` passes, the early-return
guard `!running && job_queue.empty()` fails because the queue is
non-empty, so the worker pops job 1, executes it, and its record is
emitted — the still-queued job was *not* discarded. -/
theorem stop_discards_queued_refuted : ¬ stopDiscardsQueued := by
  intro hclaim
  have hstop : Step ⟨true, [⟨1, 0⟩], [.waiting], []⟩
      ⟨false, [⟨1, 0⟩], [.waiting], []⟩ :=
    Step.stop ⟨true, [⟨1, 0⟩], [.waiting], []⟩
  have hpop : Step ⟨false, [⟨1, 0⟩], [.waiting], []⟩
      ⟨false, [], [.busy ⟨1, 0⟩], []⟩ :=
    Step.wakePop ⟨false, [⟨1, 0⟩], [.waiting], []⟩ 0 ⟨1, 0⟩ [] rfl rfl
  have hfin : Step ⟨false, [], [.busy ⟨1, 0⟩], []⟩
      ⟨false, [], [.loopTop], [1]⟩ :=
    Step.finish ⟨false, [], [.busy ⟨1, 0⟩], []⟩ 0 ⟨1, 0⟩ rfl
  have hreach : Reaches ⟨false, [⟨1, 0⟩], [.waiting], []⟩
      ⟨false, [], [.loopTop], [1]⟩ :=
    Relation.ReflTransGen.head hpop (Relation.ReflTransGen.head hfin
      Relation.ReflTransGen.refl)
  have := hclaim ⟨true, [⟨1, 0⟩], [.waiting], []⟩ ⟨false, [⟨1, 0⟩], [.waiting], []⟩
    hstop rfl rfl ⟨1, 0⟩ (by simp) ⟨false, [], [.loopTop], [1]⟩ hreach
  simp at this

theorem step_preserves_frozen (b c : SchedState) (hstep : Step b c)
    (hex : allExited b) : c.records = b.records ∧ allExited c := by
  cases hstep with
  | submit j => exact ⟨rfl, hex⟩
  | stop => exact ⟨rfl, hex⟩
  | enterWait i h hr =>
    exact absurd (hex _ (List.getElem?_mem h)) (by simp)
  | exitLoop i h hr =>
    exact absurd (hex _ (List.getElem?_mem h)) (by simp)
  | wakeExit i h hr hq =>
    exact absurd (hex _ (List.getElem?_mem h)) (by simp)
  | wakePop i j q' h hq =>
    exact absurd (hex _ (List.getElem?_mem h)) (by simp)
  | finish i j h =>
    exact absurd (hex _ (List.getElem?_mem h)) (by simp)

/-- C1 amended: once every worker has exited `worker_loop`, the record
stream is frozen, so a job still in the queue at that point (and not
executed before) is discarded and never executed.  (A job still queued at
the instant `running` flips to `false` can, by contrast, still be popped
and run by a waiting worker — see `stop_discards_queued_refuted`.) -/
theorem queued_after_workers_exit_never_executed (s t : SchedState)
    (hex : allExited s) (hst : Reaches s t) :
    t.records = s.records ∧
    ∀ j ∈ s.queue, j.id ∉ s.records → j.id ∉ t.records := by
  have key : t.records = s.records ∧ allExited t := by
    induction hst with
    | refl => exact ⟨rfl, hex⟩
    | tail _ hbc ih =>
      obtain ⟨hrec, hexb⟩ := ih
      obtain ⟨h1, h2⟩ := step_preserves_frozen _ _ hbc hexb
      exact ⟨h1.trans hrec, h2⟩
  refine ⟨key.1, fun j _ hnot => ?_⟩
  rw [key.1]
  exact hnot

/-- Witness for `queued_after_workers_exit_never_executed`: a state whose
single worker has exited while job 7 sits in the queue, with the empty
continuation of the trace. -/
theorem queued_after_workers_exit_never_executed_witness :
    (⟨false, [⟨7, 3⟩], [.exited], [5]⟩ : SchedState).records
      = (⟨false, [⟨7, 3⟩], [.exited], [5]⟩ : SchedState).records ∧
    ∀ j ∈ (⟨false, [⟨7, 3⟩], [.exited], [5]⟩ : SchedState).queue,
      j.id ∉ (⟨false, [⟨7, 3⟩], [.exited], [5]⟩ : SchedState).records →
      j.id ∉ (⟨false, [⟨7, 3⟩], [.exited], [5]⟩ : SchedState).records :=
  queued_after_workers_exit_never_executed _ _
    (by intro pc hpc; simpa using hpc) Relation.ReflTransGen.refl

/-! ## C2: calling `start()` twice -/

theorem startLoop_size (fuel : ℕ) : ∀ (n thread_id : ℕ) (v : WorkerVec),
    1 ≤ n → v.size = n + thread_id → v.size ≤ v.capacity →
    (startLoop fuel thread_id v).size = v.size + fuel ∧
    (startLoop fuel thread_id v).size ≤ (startLoop fuel thread_id v).capacity := by
  induction fuel with
  | zero =>
    intro n tid v _ _ hcap
    exact ⟨rfl, hcap⟩
  | succ f ih =>
    intro n tid v hn hsz hcap
    have hguard : tid < v.capacity := by omega
    rw [startLoop, if_pos hguard]
    have h1 : (emplace_back v).size = v.size + 1 := by
      unfold emplace_back
      split <;> rfl
    have h2 : (emplace_back v).size ≤ (emplace_back v).capacity := by
      unfold emplace_back
      split
      · rename_i hlt
        simpa using hlt
      · rename_i hge
        have hc1 : v.size = v.capacity := by omega
        have hc2 : 1 ≤ v.capacity := by omega
        simp only
        calc v.size + 1 ≤ 2 * v.capacity := by omega
        _ ≤ max 1 (2 * v.capacity) := le_max_right _ _
    have := ih n (tid + 1) (emplace_back v) hn (by omega) h2
    omega

/-- C2: the code violates the claim.  After the constructor
(`workers.reserve(4)`) the first `start()` spawns exactly 4 workers and
the loop stops; a second `start()` re-runs the loop from `thread_id = 0`,
and because every `emplace_back` keeps `size > thread_id` (and `capacity
≥ size`), the guard `thread_id < workers.capacity()` holds at *every*
iteration: after `fuel` iterations `4 + fuel` workers exist and the loop
still has not exited — the second call spawns without bound instead of
being rejected. -/
theorem second_start_spawns_without_bound (fuel : ℕ) :
    (startLoop 4 0 (schedulerCtorWorkers 4)).size = 4 ∧
    (startLoop fuel 0 (startLoop 4 0 (schedulerCtorWorkers 4))).size = 4 + fuel ∧
    fuel < (startLoop fuel 0 (startLoop 4 0 (schedulerCtorWorkers 4))).capacity := by
  have h4 : startLoop 4 0 (schedulerCtorWorkers 4) = ⟨4, 4⟩ := by decide
  rw [h4]
  obtain ⟨ha, hb⟩ := startLoop_size fuel 4 0 ⟨4, 4⟩ (by omega) (by simp) (by simp)
  have hs : (⟨4, 4⟩ : WorkerVec).size = 4 := rfl
  exact ⟨rfl, by omega, by omega⟩

/-! ## C5: failure to open the metrics destination -/

/-- C5: the code violates the claim.  When the `ofstream` fails to open,
`Logger::Logger` still completes normally (the model is a total function
with no failure outcome, exactly as the C++ constructor has no `is_open`
check and cannot throw under the default exception mask): the resulting
sink holds no header, is not open, and silently swallows every subsequent
write — the scheduler proceeds with a non-functional sink instead of
failing at construction time. -/
theorem failed_open_constructs_silent_sink :
    (loggerCtorFile false).is_open = false ∧
    (loggerCtorFile false).lines = [] ∧
    (∀ line : String, ofstreamWrite (loggerCtorFile false) line
      = loggerCtorFile false) ∧
    (loggerCtorFile true).lines = [csvHeader] := by
  refine ⟨rfl, rfl, fun line => rfl, rfl⟩

end AnomSched
